import Mathlib

/-!
Verification development for the CUDA sample `p2pBandwidthLatencyTest.cu`
(repository `cuda_examples`, v9.2.148).  The host-side control flow of the
three sweep functions (`outputBandwidthMatrix`, `outputBidirectionalBandwidthMatrix`,
`outputLatencyMatrix`) and of `main` is shallowly embedded as lists of host
operations (traces); the arithmetic of the reported matrices is embedded over ℚ
with the event/timer elapsed times supplied as oracles.
-/

namespace P2PSample

/-! ### Generic trace machinery -/

/-- `repeatList r l` is the trace produced by a host loop `for (r times) enqueue l`. -/
def repeatList (r : Nat) (l : List α) : List α :=
  match r with
  | 0 => []
  | r + 1 => l ++ repeatList r l

theorem mem_repeatList {a : α} {r : Nat} {l : List α} :
    a ∈ repeatList r l ↔ 0 < r ∧ a ∈ l := by
  induction r with
  | zero => simp [repeatList]
  | succ r ih =>
    simp only [repeatList, List.mem_append, ih]
    constructor
    · rintro (h | ⟨_, h⟩) <;> exact ⟨Nat.succ_pos r, h⟩
    · rintro ⟨_, h⟩
      exact Or.inl h

theorem map_repeatList (f : α → β) (r : Nat) (l : List α) :
    (repeatList r l).map f = repeatList r (l.map f) := by
  induction r with
  | zero => simp [repeatList]
  | succ r ih => simp [repeatList, ih]

/-- Pair every element of the trace with the state held at the moment that
element is executed (the state *before* the element's own effect). -/
def annotate (step : σ → α → σ) (s : σ) : List α → List (α × σ)
  | [] => []
  | a :: l => (a, s) :: annotate step (step s a) l

theorem annotate_append (step : σ → α → σ) (s : σ) (l₁ l₂ : List α) :
    annotate step s (l₁ ++ l₂) =
      annotate step s l₁ ++ annotate step (l₁.foldl step s) l₂ := by
  induction l₁ generalizing s with
  | nil => simp [annotate]
  | cons a l ih => simp [annotate, ih]

theorem annotate_eq_map_of_invariant (step : σ → α → σ) (s : σ) (l : List α)
    (h : ∀ s₀ a, a ∈ l → step s₀ a = s₀) :
    annotate step s l = l.map (fun a => (a, s)) := by
  induction l generalizing s with
  | nil => simp [annotate]
  | cons a l ih =>
    have ha : step s a = s := h s a (List.mem_cons_self a l)
    simp only [annotate, ha, List.map_cons]
    exact congrArg _ (ih s (fun s₀ b hb => h s₀ b (List.mem_cons_of_mem a hb)))

theorem foldl_eq_of_invariant (step : σ → α → σ) (s : σ) (l : List α)
    (h : ∀ s₀ a, a ∈ l → step s₀ a = s₀) :
    l.foldl step s = s := by
  induction l generalizing s with
  | nil => rfl
  | cons a l ih =>
    simp only [List.foldl_cons, h s a (List.mem_cons_self a l)]
    exact ih s (fun s₀ b hb => h s₀ b (List.mem_cons_of_mem a hb))

theorem foldl_flatMap_inv (step : σ → α → σ) (g : β → List α) (L : List β) (s : σ)
    (h : ∀ b ∈ L, (g b).foldl step s = s) :
    (L.flatMap g).foldl step s = s := by
  induction L with
  | nil => rfl
  | cons b L ih =>
    simp only [List.flatMap_cons, List.foldl_append,
      h b (List.mem_cons_self b L)]
    exact ih (fun c hc => h c (List.mem_cons_of_mem b hc))

theorem mem_annotate_flatMap_inv (step : σ → α → σ) (g : β → List α) (L : List β)
    (s : σ) (h : ∀ b ∈ L, (g b).foldl step s = s) :
    ∀ p ∈ annotate step s (L.flatMap g), ∃ b ∈ L, p ∈ annotate step s (g b) := by
  induction L with
  | nil => intro p hp; simp [annotate] at hp
  | cons b L ih =>
    intro p hp
    rw [List.flatMap_cons, annotate_append, h b (List.mem_cons_self b L)] at hp
    rcases List.mem_append.1 hp with hp | hp
    · exact ⟨b, List.mem_cons_self b L, hp⟩
    · obtain ⟨c, hc, hpc⟩ := ih (fun c hc => h c (List.mem_cons_of_mem b hc)) p hp
      exact ⟨c, List.mem_cons_of_mem b hc, hpc⟩

/-- If the whole trace splits as `L ++ a :: R` with `a` absent from `L` and no
element of `R` satisfying `P`, then for *every* split `u ++ a :: v` of the same
trace, no element of `v` satisfies `P`. -/
theorem no_P_after_marker {P : α → Prop} :
    ∀ (L R u v : List α) (a : α), L ++ a :: R = u ++ a :: v → a ∉ L →
      (∀ x ∈ R, ¬ P x) → ∀ x ∈ v, ¬ P x := by
  intro L
  induction L with
  | nil =>
    intro R u v a heq _ hR x hx
    cases u with
    | nil =>
      simp only [List.nil_append, List.cons.injEq] at heq
      exact hR x (heq.2 ▸ hx)
    | cons b u =>
      simp only [List.nil_append, List.cons_append, List.cons.injEq] at heq
      exact hR x (heq.2 ▸ List.mem_append.2 (Or.inr (List.mem_cons_of_mem a hx)))
  | cons c L ih =>
    intro R u v a heq hnL hR x hx
    cases u with
    | nil =>
      simp only [List.cons_append, List.nil_append, List.cons.injEq] at heq
      exact absurd (heq.1 ▸ List.mem_cons_self c L) hnL
    | cons b u =>
      simp only [List.cons_append, List.cons.injEq] at heq
      exact ih R u v a heq.2 (fun hmem => hnL (List.mem_cons_of_mem c hmem)) hR x hx

/-! ### Data model: host operations of the measurement engine -/

/-- Transfer policy, from the source `typedef enum { P2P_WRITE = 0, P2P_READ = 1 }`. -/
inductive P2PDataTransfer
  | P2P_WRITE
  | P2P_READ
deriving DecidableEq

/-- Device-memory buffer identities (`buffers[d]` and `buffersD2D[d]`). -/
inductive BufId
  | buffers (d : Nat)
  | buffersD2D (d : Nat)
deriving DecidableEq

/-- Stream identities: `stream[d]` (unidirectional/latency sweeps), and
`stream0[d]`/`stream1[d]` (bidirectional sweep). -/
inductive StreamId
  | stream (d : Nat)
  | stream0 (d : Nat)
  | stream1 (d : Nat)
deriving DecidableEq

/-- Event identities (`start[d]` and `stop[d]`). -/
inductive EventId
  | start (d : Nat)
  | stop (d : Nat)
deriving DecidableEq

/-- One host-issued operation of a measurement cell. -/
inductive HostOp
  | setFlag (v : Nat)
  | launchDelay (s : StreamId)
  | eventRecord (e : EventId) (s : StreamId)
  | streamWaitEvent (s : StreamId) (e : EventId)
  | memcpyPeerAsync (dst : BufId) (dstDev : Nat) (src : BufId) (srcDev : Nat)
      (bytes : Nat) (s : StreamId)
  | streamSynchronize (s : StreamId)
  | eventElapsedTime (e₁ e₂ : EventId)
  | timerReset
  | timerRead
deriving DecidableEq

def HostOp.isTransfer : HostOp → Bool
  | .memcpyPeerAsync _ _ _ _ _ _ => true
  | _ => false

def HostOp.isStopRecord : HostOp → Bool
  | .eventRecord (.stop _) _ => true
  | _ => false

def HostOp.isDelayLaunch : HostOp → Bool
  | .launchDelay _ => true
  | _ => false

/-- Effect of a host operation on the barrier flag (`*flag = v`). -/
def flagStep : Nat → HostOp → Nat
  | _, .setFlag v => v
  | f, _ => f

/-! ### Per-cell traces of the three sweep functions -/

/-- Transfer operations of one cell of `outputBandwidthMatrix`
(source lines 144-165): intra-device D2D copies on the diagonal, otherwise
P2P writes (`buffers[i] → buffers[j]`) or P2P reads (`buffers[j] → buffers[i]`),
all on `stream[i]`, each moving `sizeof(int)*numElems` bytes. -/
def uniTransfers (numElems r i j : Nat) (method : P2PDataTransfer) : List HostOp :=
  if i = j then
    repeatList r [.memcpyPeerAsync (.buffers i) i (.buffersD2D i) i (4 * numElems) (.stream i)]
  else if method = .P2P_WRITE then
    repeatList r [.memcpyPeerAsync (.buffers j) j (.buffers i) i (4 * numElems) (.stream i)]
  else
    repeatList r [.memcpyPeerAsync (.buffers i) i (.buffers j) j (4 * numElems) (.stream i)]

/-- Host-operation trace of one measurement cell of `outputBandwidthMatrix`
(source lines 130-176). -/
def uniCellTrace (numElems r i j : Nat) (method : P2PDataTransfer) : List HostOp :=
  [.streamSynchronize (.stream i),
   .setFlag 0,
   .launchDelay (.stream i),
   .eventRecord (.start i) (.stream i)]
  ++ uniTransfers numElems r i j method
  ++ [.eventRecord (.stop i) (.stream i),
      .setFlag 1,
      .streamSynchronize (.stream i),
      .eventElapsedTime (.start i) (.stop i)]

/-- Transfer operations of one cell of `outputBidirectionalBandwidthMatrix`
(source lines 300-312): on the diagonal two opposite intra-device copies per
repetition on `stream0[i]`/`stream1[i]`; otherwise the inbound copy
(`buffers[j] → buffers[i]`) on `stream1[j]` and the outbound copy
(`buffers[i] → buffers[j]`) on `stream0[i]`, per repetition. -/
def bidiTransfers (numElems r i j : Nat) : List HostOp :=
  if i = j then
    repeatList r
      [.memcpyPeerAsync (.buffers i) i (.buffersD2D i) i (4 * numElems) (.stream0 i),
       .memcpyPeerAsync (.buffersD2D i) i (.buffers i) i (4 * numElems) (.stream1 i)]
  else
    repeatList r
      [.memcpyPeerAsync (.buffers i) i (.buffers j) j (4 * numElems) (.stream1 j),
       .memcpyPeerAsync (.buffers j) j (.buffers i) i (4 * numElems) (.stream0 i)]

/-- Host-operation trace of one measurement cell of
`outputBidirectionalBandwidthMatrix` (source lines 279-327). -/
def bidiCellTrace (numElems r i j : Nat) : List HostOp :=
  [.streamSynchronize (.stream0 i),
   .streamSynchronize (.stream1 j),
   .setFlag 0,
   .launchDelay (.stream0 i),
   .eventRecord (.start i) (.stream0 i),
   .streamWaitEvent (.stream1 j) (.start i)]
  ++ bidiTransfers numElems r i j
  ++ [.eventRecord (.stop j) (.stream1 j),
      .streamWaitEvent (.stream0 i) (.stop j),
      .eventRecord (.stop i) (.stream0 i),
      .setFlag 1,
      .streamSynchronize (.stream0 i),
      .streamSynchronize (.stream1 j),
      .eventElapsedTime (.start i) (.stop i)]

/-- Transfer operations of one cell of `outputLatencyMatrix`
(source lines 446-467): same shape as the unidirectional sweep but each copy
moves exactly 1 byte. -/
def latencyTransfers (r i j : Nat) (method : P2PDataTransfer) : List HostOp :=
  if i = j then
    repeatList r [.memcpyPeerAsync (.buffers i) i (.buffersD2D i) i 1 (.stream i)]
  else if method = .P2P_WRITE then
    repeatList r [.memcpyPeerAsync (.buffers j) j (.buffers i) i 1 (.stream i)]
  else
    repeatList r [.memcpyPeerAsync (.buffers i) i (.buffers j) j 1 (.stream i)]

/-- Host-operation trace of one measurement cell of `outputLatencyMatrix`
(source lines 432-477), including the host stopwatch bracketing the enqueues. -/
def latencyCellTrace (r i j : Nat) (method : P2PDataTransfer) : List HostOp :=
  [.streamSynchronize (.stream i),
   .setFlag 0,
   .launchDelay (.stream i),
   .eventRecord (.start i) (.stream i),
   .timerReset]
  ++ latencyTransfers r i j method
  ++ [.timerRead,
      .eventRecord (.stop i) (.stream i),
      .setFlag 1,
      .streamSynchronize (.stream i),
      .eventElapsedTime (.start i) (.stop i)]

/-! ### The barrier-flag protocol (claim C1) -/

/-- The barrier-flag ordering discipline of one measurement cell, for an
arbitrary flag value `f0` left over when the cell starts: the delay (barrier)
kernel is launched while the flag reads 0, every transfer is enqueued while the
flag reads 0, every stop-event record is enqueued while the flag reads 0, after
any release (`*flag = 1`) no transfer and no stop-event record is ever
enqueued, and the cell does release the flag. -/
def BarrierProtocolOK (f0 : Nat) (t : List HostOp) : Prop :=
  (∀ p ∈ annotate flagStep f0 t,
      p.1.isDelayLaunch = true ∨ p.1.isTransfer = true ∨ p.1.isStopRecord = true →
        p.2 = 0)
  ∧ (∀ u v, t = u ++ HostOp.setFlag 1 :: v →
      ∀ op ∈ v, op.isTransfer = false ∧ op.isStopRecord = false)
  ∧ HostOp.setFlag 1 ∈ t

theorem fst_mem_of_mem_annotate (step : σ → α → σ) (s : σ) (l : List α) :
    ∀ p ∈ annotate step s l, p.1 ∈ l := by
  induction l generalizing s with
  | nil => intro p hp; simp [annotate] at hp
  | cons a l ih =>
    intro p hp
    rcases List.mem_cons.1 hp with hp | hp
    · rw [hp]
      exact List.mem_cons_self a l
    · exact List.mem_cons_of_mem a (ih (step s a) p hp)

theorem flagStep_eq_of_ne_setFlag {a : HostOp} (h : ∀ v, a ≠ HostOp.setFlag v)
    (s : Nat) : flagStep s a = s := by
  cases a with
  | setFlag v => exact absurd rfl (h v)
  | launchDelay _ => rfl
  | eventRecord _ _ => rfl
  | streamWaitEvent _ _ => rfl
  | memcpyPeerAsync _ _ _ _ _ _ => rfl
  | streamSynchronize _ => rfl
  | eventElapsedTime _ _ => rfl
  | timerReset => rfl
  | timerRead => rfl

theorem ne_setFlag_of_isTransfer {op : HostOp} (h : op.isTransfer = true) :
    ∀ v, op ≠ HostOp.setFlag v := by
  cases op <;> simp_all [HostOp.isTransfer]

/-- A cell trace of the shape
`A ++ *flag=0 ++ M ++ *flag=1 ++ Z` — prologue `A` free of barrier, transfer
and stop operations, measured region `M` free of flag writes, epilogue `Z`
free of barrier, transfer and stop operations — obeys the barrier-flag
protocol from any initial flag value. -/
theorem barrierProtocol_of_shape (f0 : Nat) (A M Z : List HostOp)
    (hA : ∀ op ∈ A, op.isDelayLaunch = false ∧ op.isTransfer = false ∧
      op.isStopRecord = false ∧ ∀ v, op ≠ HostOp.setFlag v)
    (hM : ∀ op ∈ M, ∀ v, op ≠ HostOp.setFlag v)
    (hZ : ∀ op ∈ Z, op.isDelayLaunch = false ∧ op.isTransfer = false ∧
      op.isStopRecord = false) :
    BarrierProtocolOK f0 (A ++ HostOp.setFlag 0 :: (M ++ HostOp.setFlag 1 :: Z)) := by
  have hMinv : ∀ (s₀ : Nat) (a : HostOp), a ∈ M → flagStep s₀ a = s₀ :=
    fun s₀ a ha => flagStep_eq_of_ne_setFlag (hM a ha) s₀
  refine ⟨?_, ?_, ?_⟩
  · intro p hp hkind
    rw [annotate_append] at hp
    rcases List.mem_append.1 hp with hp | hp
    · obtain ⟨h₁, h₂, h₃, _⟩ := hA p.1 (fst_mem_of_mem_annotate _ _ _ p hp)
      rcases hkind with hk | hk | hk <;> simp_all
    · rw [show annotate flagStep (A.foldl flagStep f0)
            (HostOp.setFlag 0 :: (M ++ HostOp.setFlag 1 :: Z)) =
          (HostOp.setFlag 0, A.foldl flagStep f0) ::
            annotate flagStep 0 (M ++ HostOp.setFlag 1 :: Z) from rfl] at hp
      rcases List.mem_cons.1 hp with hp | hp
      · subst hp
        simp [HostOp.isDelayLaunch, HostOp.isTransfer, HostOp.isStopRecord] at hkind
      · rw [annotate_append, annotate_eq_map_of_invariant _ _ _ hMinv,
          foldl_eq_of_invariant _ _ _ hMinv] at hp
        rcases List.mem_append.1 hp with hp | hp
        · obtain ⟨a, _, rfl⟩ := List.mem_map.1 hp
          rfl
        · rw [show annotate flagStep 0 (HostOp.setFlag 1 :: Z) =
              (HostOp.setFlag 1, 0) :: annotate flagStep 1 Z from rfl] at hp
          rcases List.mem_cons.1 hp with hp | hp
          · subst hp
            simp [HostOp.isDelayLaunch, HostOp.isTransfer, HostOp.isStopRecord] at hkind
          · obtain ⟨h₁, h₂, h₃⟩ := hZ p.1 (fst_mem_of_mem_annotate _ _ _ p hp)
            rcases hkind with hk | hk | hk <;> simp_all
  · intro u v heq op hop
    have hnotL : HostOp.setFlag 1 ∉ A ++ HostOp.setFlag 0 :: M := by
      intro hmem
      rcases List.mem_append.1 hmem with hmem | hmem
      · exact (hA _ hmem).2.2.2 1 rfl
      · rcases List.mem_cons.1 hmem with hmem | hmem
        · exact absurd (HostOp.setFlag.inj hmem) one_ne_zero
        · exact hM _ hmem 1 rfl
    have heq' : (A ++ HostOp.setFlag 0 :: M) ++ HostOp.setFlag 1 :: Z =
        u ++ HostOp.setFlag 1 :: v := by
      rw [← heq]; simp
    have := no_P_after_marker (P := fun x => x.isTransfer = true ∨ x.isStopRecord = true)
      (A ++ HostOp.setFlag 0 :: M) Z u v (HostOp.setFlag 1) heq' hnotL
      (fun x hx => by
        obtain ⟨_, h₂, h₃⟩ := hZ x hx
        rintro (hk | hk) <;> simp_all) op hop
    constructor
    · cases h : op.isTransfer
      · rfl
      · exact absurd (Or.inl h) this
    · cases h : op.isStopRecord
      · rfl
      · exact absurd (Or.inr h) this
  · simp

theorem mem_uniTransfers_isTransfer {numElems r i j : Nat}
    {method : P2PDataTransfer} {op : HostOp}
    (h : op ∈ uniTransfers numElems r i j method) : op.isTransfer = true := by
  unfold uniTransfers at h
  split at h <;> [skip; split at h] <;>
    · obtain ⟨-, h⟩ := mem_repeatList.1 h
      simp only [List.mem_singleton] at h
      subst h
      rfl

theorem mem_bidiTransfers_isTransfer {numElems r i j : Nat} {op : HostOp}
    (h : op ∈ bidiTransfers numElems r i j) : op.isTransfer = true := by
  unfold bidiTransfers at h
  split at h <;>
    · obtain ⟨-, h⟩ := mem_repeatList.1 h
      simp only [List.mem_cons, List.not_mem_nil, or_false] at h
      rcases h with rfl | rfl <;> rfl

theorem mem_latencyTransfers_isTransfer {r i j : Nat}
    {method : P2PDataTransfer} {op : HostOp}
    (h : op ∈ latencyTransfers r i j method) : op.isTransfer = true := by
  unfold latencyTransfers at h
  split at h <;> [skip; split at h] <;>
    · obtain ⟨-, h⟩ := mem_repeatList.1 h
      simp only [List.mem_singleton] at h
      subst h
      rfl

theorem uniCellTrace_protocol (numElems r i j : Nat) (method : P2PDataTransfer)
    (f0 : Nat) : BarrierProtocolOK f0 (uniCellTrace numElems r i j method) := by
  have h := barrierProtocol_of_shape f0
    [.streamSynchronize (.stream i)]
    ([.launchDelay (.stream i), .eventRecord (.start i) (.stream i)]
      ++ uniTransfers numElems r i j method
      ++ [.eventRecord (.stop i) (.stream i)])
    [.streamSynchronize (.stream i), .eventElapsedTime (.start i) (.stop i)]
    (by
      intro op hop
      simp only [List.mem_singleton] at hop
      subst hop
      exact ⟨rfl, rfl, rfl, fun v h => HostOp.noConfusion h⟩)
    (by
      refine List.forall_mem_append.2 ⟨List.forall_mem_append.2 ⟨?_, ?_⟩, ?_⟩
      · intro op hop
        simp only [List.mem_cons, List.not_mem_nil, or_false] at hop
        rcases hop with rfl | rfl <;> exact fun v h => HostOp.noConfusion h
      · exact fun op hop => ne_setFlag_of_isTransfer (mem_uniTransfers_isTransfer hop)
      · intro op hop
        simp only [List.mem_singleton] at hop
        subst hop
        exact fun v h => HostOp.noConfusion h)
    (by
      intro op hop
      simp only [List.mem_cons, List.not_mem_nil, or_false] at hop
      rcases hop with rfl | rfl <;> exact ⟨rfl, rfl, rfl⟩)
  have hshape : uniCellTrace numElems r i j method =
      [.streamSynchronize (.stream i)] ++ HostOp.setFlag 0 ::
        (([.launchDelay (.stream i), .eventRecord (.start i) (.stream i)]
          ++ uniTransfers numElems r i j method
          ++ [.eventRecord (.stop i) (.stream i)])
         ++ HostOp.setFlag 1 ::
           [.streamSynchronize (.stream i), .eventElapsedTime (.start i) (.stop i)]) := by
    simp [uniCellTrace]
  rw [hshape]
  exact h

theorem bidiCellTrace_protocol (numElems r i j : Nat) (f0 : Nat) :
    BarrierProtocolOK f0 (bidiCellTrace numElems r i j) := by
  have h := barrierProtocol_of_shape f0
    [.streamSynchronize (.stream0 i), .streamSynchronize (.stream1 j)]
    ([.launchDelay (.stream0 i), .eventRecord (.start i) (.stream0 i),
      .streamWaitEvent (.stream1 j) (.start i)]
      ++ bidiTransfers numElems r i j
      ++ [.eventRecord (.stop j) (.stream1 j),
          .streamWaitEvent (.stream0 i) (.stop j),
          .eventRecord (.stop i) (.stream0 i)])
    [.streamSynchronize (.stream0 i), .streamSynchronize (.stream1 j),
     .eventElapsedTime (.start i) (.stop i)]
    (by
      intro op hop
      simp only [List.mem_cons, List.not_mem_nil, or_false] at hop
      rcases hop with rfl | rfl <;> exact ⟨rfl, rfl, rfl, fun v h => HostOp.noConfusion h⟩)
    (by
      refine List.forall_mem_append.2 ⟨List.forall_mem_append.2 ⟨?_, ?_⟩, ?_⟩
      · intro op hop
        simp only [List.mem_cons, List.not_mem_nil, or_false] at hop
        rcases hop with rfl | rfl | rfl <;> exact fun v h => HostOp.noConfusion h
      · exact fun op hop => ne_setFlag_of_isTransfer (mem_bidiTransfers_isTransfer hop)
      · intro op hop
        simp only [List.mem_cons, List.not_mem_nil, or_false] at hop
        rcases hop with rfl | rfl | rfl <;> exact fun v h => HostOp.noConfusion h)
    (by
      intro op hop
      simp only [List.mem_cons, List.not_mem_nil, or_false] at hop
      rcases hop with rfl | rfl | rfl <;> exact ⟨rfl, rfl, rfl⟩)
  have hshape : bidiCellTrace numElems r i j =
      [.streamSynchronize (.stream0 i), .streamSynchronize (.stream1 j)]
        ++ HostOp.setFlag 0 ::
        (([.launchDelay (.stream0 i), .eventRecord (.start i) (.stream0 i),
           .streamWaitEvent (.stream1 j) (.start i)]
          ++ bidiTransfers numElems r i j
          ++ [.eventRecord (.stop j) (.stream1 j),
              .streamWaitEvent (.stream0 i) (.stop j),
              .eventRecord (.stop i) (.stream0 i)])
         ++ HostOp.setFlag 1 ::
           [.streamSynchronize (.stream0 i), .streamSynchronize (.stream1 j),
            .eventElapsedTime (.start i) (.stop i)]) := by
    simp [bidiCellTrace]
  rw [hshape]
  exact h

theorem latencyCellTrace_protocol (r i j : Nat) (method : P2PDataTransfer)
    (f0 : Nat) : BarrierProtocolOK f0 (latencyCellTrace r i j method) := by
  have h := barrierProtocol_of_shape f0
    [.streamSynchronize (.stream i)]
    ([.launchDelay (.stream i), .eventRecord (.start i) (.stream i), .timerReset]
      ++ latencyTransfers r i j method
      ++ [.timerRead, .eventRecord (.stop i) (.stream i)])
    [.streamSynchronize (.stream i), .eventElapsedTime (.start i) (.stop i)]
    (by
      intro op hop
      simp only [List.mem_singleton] at hop
      subst hop
      exact ⟨rfl, rfl, rfl, fun v h => HostOp.noConfusion h⟩)
    (by
      refine List.forall_mem_append.2 ⟨List.forall_mem_append.2 ⟨?_, ?_⟩, ?_⟩
      · intro op hop
        simp only [List.mem_cons, List.not_mem_nil, or_false] at hop
        rcases hop with rfl | rfl | rfl <;> exact fun v h => HostOp.noConfusion h
      · exact fun op hop => ne_setFlag_of_isTransfer (mem_latencyTransfers_isTransfer hop)
      · intro op hop
        simp only [List.mem_cons, List.not_mem_nil, or_false] at hop
        rcases hop with rfl | rfl <;> exact fun v h => HostOp.noConfusion h)
    (by
      intro op hop
      simp only [List.mem_cons, List.not_mem_nil, or_false] at hop
      rcases hop with rfl | rfl <;> exact ⟨rfl, rfl, rfl⟩)
  have hshape : latencyCellTrace r i j method =
      [.streamSynchronize (.stream i)] ++ HostOp.setFlag 0 ::
        (([.launchDelay (.stream i), .eventRecord (.start i) (.stream i), .timerReset]
          ++ latencyTransfers r i j method
          ++ [.timerRead, .eventRecord (.stop i) (.stream i)])
         ++ HostOp.setFlag 1 ::
           [.streamSynchronize (.stream i), .eventElapsedTime (.start i) (.stop i)]) := by
    simp [latencyCellTrace]
  rw [hshape]
  exact h

/-- Claim C1: for every measurement cell of every sweep (unidirectional
bandwidth, bidirectional bandwidth, latency), whatever flag value `f0` is left
over from the previous cell, the barrier flag reads 0 at the moment the cell's
delay (barrier) kernel is launched, reads 0 at the moment any of the cell's
transfer operations is enqueued, reads 0 at the moment the stop-event records
are enqueued, and is set to 1 only after all transfer operations and stop-event
records of the cell have been enqueued — never before. -/
theorem claim1_barrier_flag_ordering (numElems r i j : Nat)
    (method : P2PDataTransfer) (f0 : Nat) :
    BarrierProtocolOK f0 (uniCellTrace numElems r i j method)
    ∧ BarrierProtocolOK f0 (bidiCellTrace numElems r i j)
    ∧ BarrierProtocolOK f0 (latencyCellTrace r i j method) :=
  ⟨uniCellTrace_protocol numElems r i j method f0,
   bidiCellTrace_protocol numElems r i j f0,
   latencyCellTrace_protocol r i j method f0⟩

theorem claim1_barrier_flag_ordering_witness :
    (uniCellTrace 2 1 0 1 .P2P_WRITE =
      [.streamSynchronize (.stream 0), .setFlag 0, .launchDelay (.stream 0),
       .eventRecord (.start 0) (.stream 0),
       .memcpyPeerAsync (.buffers 1) 1 (.buffers 0) 0 8 (.stream 0),
       .eventRecord (.stop 0) (.stream 0)] ++ HostOp.setFlag 1 ::
        [.streamSynchronize (.stream 0), .eventElapsedTime (.start 0) (.stop 0)])
    ∧ HostOp.streamSynchronize (.stream 0) ∈
        ([.streamSynchronize (.stream 0),
          .eventElapsedTime (.start 0) (.stop 0)] : List HostOp)
    ∧ ((HostOp.streamSynchronize (.stream 0)).isTransfer = false ∧
        (HostOp.streamSynchronize (.stream 0)).isStopRecord = false) :=
  ⟨by decide, by decide,
   (claim1_barrier_flag_ordering 2 1 0 1 .P2P_WRITE 7).1.2.1
     [.streamSynchronize (.stream 0), .setFlag 0, .launchDelay (.stream 0),
      .eventRecord (.start 0) (.stream 0),
      .memcpyPeerAsync (.buffers 1) 1 (.buffers 0) 0 8 (.stream 0),
      .eventRecord (.stop 0) (.stream 0)]
     [.streamSynchronize (.stream 0), .eventElapsedTime (.start 0) (.stop 0)]
     (by decide) (HostOp.streamSynchronize (.stream 0)) (by decide)⟩

/-! ### Result matrices (claims C2, C3, C7) -/

/-- Row-major flattened `N × N` result matrix, mirroring the C++
`vector<double> matrix(numGPUs * numGPUs)` written at index `i * numGPUs + j`. -/
def flatGrid (rows width : Nat) (f : Nat → Nat → α) : List α :=
  (List.range rows).flatMap (fun i => (List.range width).map (f i))

theorem flatGrid_succ (rows width : Nat) (f : Nat → Nat → α) :
    flatGrid (rows + 1) width f =
      flatGrid rows width f ++ (List.range width).map (f rows) := by
  unfold flatGrid
  rw [List.range_succ, List.flatMap_append]
  simp

theorem length_flatGrid (rows width : Nat) (f : Nat → Nat → α) :
    (flatGrid rows width f).length = rows * width := by
  induction rows with
  | zero => simp [flatGrid]
  | succ r ih =>
    rw [flatGrid_succ, List.length_append, ih, List.length_map,
      List.length_range, Nat.succ_mul]

theorem flatGrid_getElem? (rows width : Nat) (f : Nat → Nat → α) (i j : Nat)
    (hi : i < rows) (hj : j < width) :
    (flatGrid rows width f)[i * width + j]? = some (f i j) := by
  induction rows with
  | zero => omega
  | succ r ih =>
    rw [flatGrid_succ]
    rcases Nat.lt_succ_iff_lt_or_eq.1 hi with hi | rfl
    · rw [List.getElem?_append_left, ih hi]
      calc i * width + j < i * width + width := by omega
        _ = (i + 1) * width := by ring
        _ ≤ r * width := Nat.mul_le_mul_right width hi
        _ = (flatGrid r width f).length := (length_flatGrid r width f).symm
    · rw [List.getElem?_append_right (by rw [length_flatGrid]; omega)]
      rw [length_flatGrid, Nat.add_sub_cancel_left]
      rw [List.getElem?_map, List.getElem?_range hj]
      rfl

/-- `numElems` of both bandwidth sweeps (source lines 84, 231). -/
def bwNumElems : Nat := 10000000

/-- `repeat` of both bandwidth sweeps (source lines 85, 232). -/
def bwRepeat : Nat := 5

/-- `sizeof(int)` on the target platform. -/
def sizeofInt : Nat := 4

/-- The value written into `bandwidthMatrix[i * numGPUs + j]` by
`outputBandwidthMatrix` (source lines 175-183), given the elapsed
event time in milliseconds. -/
def uniBandwidthCell (i j : Nat) (time_ms : ℚ) : ℚ :=
  let time_s : ℚ := time_ms / 1000
  let gb : ℚ := (bwNumElems * sizeofInt * bwRepeat : ℚ) / 1000000000
  let gb2 : ℚ := if i = j then gb * 2 else gb
  gb2 / time_s

/-- The full unidirectional bandwidth matrix, the elapsed per-cell event times
supplied as an oracle. -/
def bandwidthMatrix (numGPUs : Nat) (time_ms : Nat → Nat → ℚ) : List ℚ :=
  flatGrid numGPUs numGPUs (fun i j => uniBandwidthCell i j (time_ms i j))

/-- Modelled from the spec's wording for C2: the byte count
`element_size (4) * element_count (10000000) * repeat (5)`, doubled on the
diagonal. -/
def specUniBytes (i j : Nat) : Nat :=
  if i = j then 2 * (4 * 10000000 * 5) else 4 * 10000000 * 5

/-- Claim C2: every cell of the unidirectional sweep reports
`bytes / elapsed_seconds` (in GB/s, i.e. scaled by `10^9`) with
`bytes = 4 * 10000000 * 5`, doubled on the diagonal, and the generated matrix
is `N × N` (row-major, `N * N` entries) for every device count. -/
theorem claim2_unidirectional_bandwidth_formula (N : Nat)
    (time_ms : Nat → Nat → ℚ) (i j : Nat) (hi : i < N) (hj : j < N) :
    (bandwidthMatrix N time_ms).length = N * N
    ∧ (bandwidthMatrix N time_ms)[i * N + j]? =
        some ((specUniBytes i j : ℚ) / 1000000000 / (time_ms i j / 1000)) := by
  constructor
  · exact length_flatGrid N N _
  · rw [bandwidthMatrix, flatGrid_getElem? N N _ i j hi hj]
    unfold uniBandwidthCell specUniBytes bwNumElems bwRepeat sizeofInt
    split <;> norm_num

theorem claim2_unidirectional_bandwidth_formula_witness :
    (0 : Nat) < 1 ∧
      ((bandwidthMatrix 1 (fun _ _ => 1)).length = 1 * 1
       ∧ (bandwidthMatrix 1 (fun _ _ => 1))[0 * 1 + 0]? =
           some ((specUniBytes 0 0 : ℚ) / 1000000000 / ((1 : ℚ) / 1000))) :=
  ⟨Nat.one_pos,
   claim2_unidirectional_bandwidth_formula 1 (fun _ _ => 1) 0 0 Nat.one_pos Nat.one_pos⟩

/-- The value written into `bandwidthMatrix[i * numGPUs + j]` by
`outputBidirectionalBandwidthMatrix` (source lines 326-334). -/
def bidiBandwidthCell (i j : Nat) (time_ms : ℚ) : ℚ :=
  let time_s : ℚ := time_ms / 1000
  let gb : ℚ := 2 * (bwNumElems * sizeofInt * bwRepeat : ℚ) / 1000000000
  let gb2 : ℚ := if i = j then gb * 2 else gb
  gb2 / time_s

/-- The full bidirectional bandwidth matrix. -/
def bidiBandwidthMatrix (numGPUs : Nat) (time_ms : Nat → Nat → ℚ) : List ℚ :=
  flatGrid numGPUs numGPUs (fun i j => bidiBandwidthCell i j (time_ms i j))

/-- Modelled from the spec's wording for C3: double the unidirectional byte
count, doubled again on the diagonal. -/
def specBidiBytes (i j : Nat) : Nat :=
  if i = j then 2 * (2 * (4 * 10000000 * 5)) else 2 * (4 * 10000000 * 5)

/-- Claim C3: every cell of the bidirectional sweep reports double the
unidirectional byte count divided by elapsed seconds (in GB/s), doubled again
on the diagonal, in an `N × N` matrix. -/
theorem claim3_bidirectional_bandwidth_formula (N : Nat)
    (time_ms : Nat → Nat → ℚ) (i j : Nat) (hi : i < N) (hj : j < N) :
    (bidiBandwidthMatrix N time_ms).length = N * N
    ∧ (bidiBandwidthMatrix N time_ms)[i * N + j]? =
        some ((specBidiBytes i j : ℚ) / 1000000000 / (time_ms i j / 1000)) := by
  constructor
  · exact length_flatGrid N N _
  · rw [bidiBandwidthMatrix, flatGrid_getElem? N N _ i j hi hj]
    unfold bidiBandwidthCell specBidiBytes bwNumElems bwRepeat sizeofInt
    split <;> norm_num

theorem claim3_bidirectional_bandwidth_formula_witness :
    (0 : Nat) < 1 ∧
      ((bidiBandwidthMatrix 1 (fun _ _ => 1)).length = 1 * 1
       ∧ (bidiBandwidthMatrix 1 (fun _ _ => 1))[0 * 1 + 0]? =
           some ((specBidiBytes 0 0 : ℚ) / 1000000000 / ((1 : ℚ) / 1000))) :=
  ⟨Nat.one_pos,
   claim3_bidirectional_bandwidth_formula 1 (fun _ _ => 1) 0 0 Nat.one_pos Nat.one_pos⟩

/-! ### Bidirectional event ordering (claim C4) -/

def HostOp.isStartRecord : HostOp → Bool
  | .eventRecord (.start _) _ => true
  | _ => false

theorem bidiTransfers_filter_delay (numElems r i j : Nat) :
    (bidiTransfers numElems r i j).filter (fun op => op.isDelayLaunch) = [] := by
  rw [List.filter_eq_nil_iff]
  intro a ha
  have h := mem_bidiTransfers_isTransfer ha
  cases a <;> simp_all [HostOp.isTransfer, HostOp.isDelayLaunch]

theorem bidiTransfers_filter_startRecord (numElems r i j : Nat) :
    (bidiTransfers numElems r i j).filter (fun op => op.isStartRecord) = [] := by
  rw [List.filter_eq_nil_iff]
  intro a ha
  have h := mem_bidiTransfers_isTransfer ha
  cases a <;> simp_all [HostOp.isTransfer, HostOp.isStartRecord]

/-- Claim C4: in every bidirectional cell, the barrier kernel and the (unique)
start-event record are issued only on the source's outbound stream
`stream0[i]`; the destination's inbound stream `stream1[j]` is made to wait on
that start event before any of the cell's transfers; and the stop sequence is
inverted — `stop[j]` is recorded on the inbound stream, the outbound stream
waits on it, and only then is `stop[i]` recorded on the outbound stream, all
after every transfer of the cell has been enqueued. -/
theorem claim4_bidirectional_event_ordering (numElems r i j : Nat) :
    ((bidiCellTrace numElems r i j).filter (fun op => op.isDelayLaunch)) =
        [.launchDelay (.stream0 i)]
    ∧ ((bidiCellTrace numElems r i j).filter (fun op => op.isStartRecord)) =
        [.eventRecord (.start i) (.stream0 i)]
    ∧ (∃ u v, bidiCellTrace numElems r i j =
          u ++ HostOp.streamWaitEvent (.stream1 j) (.start i) :: v
        ∧ (∀ op ∈ u, op.isTransfer = false)
        ∧ ∀ op ∈ bidiTransfers numElems r i j, op ∈ v)
    ∧ (∃ u v, bidiCellTrace numElems r i j =
          u ++ HostOp.eventRecord (.stop j) (.stream1 j) ::
            HostOp.streamWaitEvent (.stream0 i) (.stop j) ::
            HostOp.eventRecord (.stop i) (.stream0 i) :: v
        ∧ (∀ op ∈ bidiTransfers numElems r i j, op ∈ u)
        ∧ ∀ op ∈ v, op.isTransfer = false) := by
  refine ⟨?_, ?_, ?_, ?_⟩
  · rw [bidiCellTrace, List.filter_append, List.filter_append,
      bidiTransfers_filter_delay]
    simp [HostOp.isDelayLaunch]
  · rw [bidiCellTrace, List.filter_append, List.filter_append,
      bidiTransfers_filter_startRecord]
    simp [HostOp.isStartRecord]
  · refine ⟨[.streamSynchronize (.stream0 i), .streamSynchronize (.stream1 j),
      .setFlag 0, .launchDelay (.stream0 i), .eventRecord (.start i) (.stream0 i)],
      bidiTransfers numElems r i j ++
        [.eventRecord (.stop j) (.stream1 j),
         .streamWaitEvent (.stream0 i) (.stop j),
         .eventRecord (.stop i) (.stream0 i),
         .setFlag 1,
         .streamSynchronize (.stream0 i),
         .streamSynchronize (.stream1 j),
         .eventElapsedTime (.start i) (.stop i)], ?_, ?_, ?_⟩
    · simp [bidiCellTrace]
    · intro op hop
      simp only [List.mem_cons, List.not_mem_nil, or_false] at hop
      rcases hop with rfl | rfl | rfl | rfl | rfl <;> rfl
    · intro op hop
      exact List.mem_append.2 (Or.inl hop)
  · refine ⟨[.streamSynchronize (.stream0 i), .streamSynchronize (.stream1 j),
      .setFlag 0, .launchDelay (.stream0 i), .eventRecord (.start i) (.stream0 i),
      .streamWaitEvent (.stream1 j) (.start i)] ++ bidiTransfers numElems r i j,
      [.setFlag 1, .streamSynchronize (.stream0 i), .streamSynchronize (.stream1 j),
       .eventElapsedTime (.start i) (.stop i)], ?_, ?_, ?_⟩
    · simp [bidiCellTrace]
    · intro op hop
      exact List.mem_append.2 (Or.inr hop)
    · intro op hop
      simp only [List.mem_cons, List.not_mem_nil, or_false] at hop
      rcases hop with rfl | rfl | rfl | rfl <;> rfl

theorem claim4_bidirectional_event_ordering_witness :
    (bidiCellTrace 2 1 0 1).filter (fun op => op.isDelayLaunch) =
      [.launchDelay (.stream0 0)] :=
  (claim4_bidirectional_event_ordering 2 1 0 1).1

/-! ### Transfer direction under the two policies (claim C5) -/

/-- Exchange source and destination of a copy operation. -/
def swapTransferDirection : HostOp → HostOp
  | .memcpyPeerAsync dst dstDev src srcDev b s =>
      .memcpyPeerAsync src srcDev dst dstDev b s
  | op => op

/-- Claim C5: for every non-diagonal cell, `P2P_WRITE` enqueues copies from
device `i`'s buffer into device `j`'s buffer while `P2P_READ` enqueues the
exact opposite direction (source and destination exchanged), in both the
bandwidth sweep and the latency sweep; for every diagonal cell, both policies
enqueue the identical local copies. -/
theorem claim5_policy_transfer_directions (numElems r i j : Nat) :
    (i ≠ j →
      uniTransfers numElems r i j .P2P_WRITE =
        repeatList r
          [.memcpyPeerAsync (.buffers j) j (.buffers i) i (4 * numElems) (.stream i)]
      ∧ uniTransfers numElems r i j .P2P_READ =
          repeatList r
            [.memcpyPeerAsync (.buffers i) i (.buffers j) j (4 * numElems) (.stream i)]
      ∧ uniTransfers numElems r i j .P2P_READ =
          (uniTransfers numElems r i j .P2P_WRITE).map swapTransferDirection
      ∧ latencyTransfers r i j .P2P_WRITE =
          repeatList r [.memcpyPeerAsync (.buffers j) j (.buffers i) i 1 (.stream i)]
      ∧ latencyTransfers r i j .P2P_READ =
          repeatList r [.memcpyPeerAsync (.buffers i) i (.buffers j) j 1 (.stream i)]
      ∧ latencyTransfers r i j .P2P_READ =
          (latencyTransfers r i j .P2P_WRITE).map swapTransferDirection)
    ∧ (i = j →
      uniTransfers numElems r i j .P2P_WRITE = uniTransfers numElems r i j .P2P_READ
      ∧ latencyTransfers r i j .P2P_WRITE = latencyTransfers r i j .P2P_READ) := by
  constructor
  · intro hne
    refine ⟨?_, ?_, ?_, ?_, ?_, ?_⟩ <;>
      simp [uniTransfers, latencyTransfers, hne, map_repeatList, swapTransferDirection]
  · intro heq
    subst heq
    exact ⟨by simp [uniTransfers, latencyTransfers], by simp [latencyTransfers]⟩

theorem claim5_policy_transfer_directions_witness :
    uniTransfers 2 1 0 1 .P2P_READ =
      (uniTransfers 2 1 0 1 .P2P_WRITE).map swapTransferDirection :=
  ((claim5_policy_transfer_directions 2 1 0 1).1 (by decide)).2.2.1

/-! ### Peer-access enable/disable bracketing (claim C6) -/

/-- Peer-access related host operations of one grid cell, at the granularity
needed for the enable/disable bracketing invariant. -/
inductive PeerOp
  | canAccessPeer (i j : Nat)
  | enablePeerAccess (src dst : Nat)
  | disablePeerAccess (src dst : Nat)
  | measureCell (i j : Nat)
deriving DecidableEq

/-- Effect of a peer operation on the set of enabled ordered device pairs. -/
def peerStep (s : Finset (Nat × Nat)) : PeerOp → Finset (Nat × Nat)
  | .enablePeerAccess a b => insert (a, b) s
  | .disablePeerAccess a b => s.erase (a, b)
  | _ => s

/-- Peer-access operations of one grid cell (source lines 114-128 and 184-190
of `outputBandwidthMatrix`; the bidirectional and latency sweeps are
structurally identical): when P2P is requested the capability is queried and,
if it holds, both directions are enabled; after the cell's measurement both
directions are disabled under the same condition. -/
def cellPeerTrace (p2p : Bool) (cap : Nat → Nat → Bool) (i j : Nat) : List PeerOp :=
  (if p2p then
     PeerOp.canAccessPeer i j ::
       (if cap i j then [.enablePeerAccess i j, .enablePeerAccess j i] else [])
   else [])
  ++ [.measureCell i j]
  ++ (if p2p && cap i j then [.disablePeerAccess i j, .disablePeerAccess j i] else [])

/-- The whole sweep's peer-access operations, row-major over the grid. -/
def sweepPeerTrace (N : Nat) (p2p : Bool) (cap : Nat → Nat → Bool) : List PeerOp :=
  (List.range N).flatMap (fun i =>
    (List.range N).flatMap (fun j => cellPeerTrace p2p cap i j))

theorem cellPeerTrace_foldl (p2p : Bool) (cap : Nat → Nat → Bool) (i j : Nat) :
    (cellPeerTrace p2p cap i j).foldl peerStep ∅ = ∅ := by
  cases p2p with
  | false => simp [cellPeerTrace, peerStep]
  | true =>
    cases hcap : cap i j with
    | false => simp [cellPeerTrace, hcap, peerStep]
    | true =>
      simp only [cellPeerTrace, hcap, Bool.true_and, if_true, List.cons_append,
        List.nil_append, List.singleton_append, List.foldl_cons, List.foldl_nil,
        peerStep]
      ext a
      simp only [Finset.mem_erase, Finset.mem_insert, Finset.not_mem_empty,
        iff_false, not_and, not_or]
      tauto

theorem cellPeerTrace_annotate (p2p : Bool) (cap : Nat → Nat → Bool) (a b : Nat) :
    ∀ p ∈ annotate peerStep ∅ (cellPeerTrace p2p cap a b), ∀ i j,
      (p.1 = PeerOp.measureCell i j →
        p.2 = if p2p && cap i j then ({(i, j), (j, i)} : Finset (Nat × Nat)) else ∅)
      ∧ (p.1 = PeerOp.canAccessPeer i j → p.2 = ∅) := by
  cases p2p with
  | false =>
    intro p hp i j
    simp only [cellPeerTrace, if_neg Bool.false_ne_true, List.nil_append,
      Bool.false_and, List.singleton_append] at hp ⊢
    simp only [annotate, List.mem_singleton] at hp
    subst hp
    exact ⟨fun heq => by simp, fun heq => rfl⟩
  | true =>
    cases hcap : cap a b with
    | false =>
      intro p hp i j
      simp only [cellPeerTrace, hcap, if_true, if_neg Bool.false_ne_true,
        Bool.true_and, List.cons_append, List.nil_append, List.singleton_append,
        List.append_nil, annotate, peerStep, List.mem_cons, List.mem_singleton,
        List.not_mem_nil, or_false] at hp
      rcases hp with rfl | rfl
      · exact ⟨fun heq => PeerOp.noConfusion heq, fun heq => rfl⟩
      · refine ⟨fun heq => ?_, fun heq => PeerOp.noConfusion heq⟩
        obtain ⟨rfl, rfl⟩ : a = i ∧ b = j := by
          injection heq with h₁ h₂
          exact ⟨h₁, h₂⟩
        rw [hcap]
        rfl
    | true =>
      intro p hp i j
      simp only [cellPeerTrace, hcap, if_true, Bool.true_and, List.cons_append,
        List.nil_append, List.singleton_append, annotate, peerStep,
        List.mem_cons, List.not_mem_nil, or_false] at hp
      rcases hp with rfl | rfl | rfl | rfl | rfl | rfl
      · exact ⟨fun heq => PeerOp.noConfusion heq, fun heq => rfl⟩
      · exact ⟨fun heq => PeerOp.noConfusion heq, fun heq => PeerOp.noConfusion heq⟩
      · exact ⟨fun heq => PeerOp.noConfusion heq, fun heq => PeerOp.noConfusion heq⟩
      · refine ⟨fun heq => ?_, fun heq => PeerOp.noConfusion heq⟩
        obtain ⟨rfl, rfl⟩ : a = i ∧ b = j := by
          injection heq with h₁ h₂
          exact ⟨h₁, h₂⟩
        rw [hcap]
        simp only [Bool.true_and, if_true]
        exact Finset.Insert.comm _ _ _
      · exact ⟨fun heq => PeerOp.noConfusion heq, fun heq => PeerOp.noConfusion heq⟩
      · exact ⟨fun heq => PeerOp.noConfusion heq, fun heq => PeerOp.noConfusion heq⟩

/-- Claim C6: for every grid cell of a sweep, peer access is enabled in both
directions exactly when P2P was requested and the capability query holds (the
enabled set at each cell's measurement is `{(i,j), (j,i)}` in that case and `∅`
otherwise); every cell begins with no peer access left enabled (the enabled
set at every capability query is `∅`); each cell's enable/disable operations
bracket exactly that cell (running one cell from the empty state returns to
the empty state), and at the end of the sweep everything is disabled. -/
theorem claim6_peer_access_bracketing (N : Nat) (p2p : Bool)
    (cap : Nat → Nat → Bool) :
    (∀ p ∈ annotate peerStep ∅ (sweepPeerTrace N p2p cap), ∀ i j,
      (p.1 = PeerOp.measureCell i j →
        p.2 = if p2p && cap i j then ({(i, j), (j, i)} : Finset (Nat × Nat)) else ∅)
      ∧ (p.1 = PeerOp.canAccessPeer i j → p.2 = ∅))
    ∧ (∀ i j, (PeerOp.enablePeerAccess i j ∈ cellPeerTrace p2p cap i j
          ∧ PeerOp.enablePeerAccess j i ∈ cellPeerTrace p2p cap i j)
        ↔ (p2p && cap i j) = true)
    ∧ (∀ i j, (cellPeerTrace p2p cap i j).foldl peerStep ∅ = ∅)
    ∧ (sweepPeerTrace N p2p cap).foldl peerStep ∅ = ∅ := by
  refine ⟨?_, ?_, cellPeerTrace_foldl p2p cap, ?_⟩
  · intro p hp
    obtain ⟨i', hi', hp'⟩ := mem_annotate_flatMap_inv peerStep _ _ ∅
      (fun i' _ => foldl_flatMap_inv peerStep _ _ ∅
        (fun j' _ => cellPeerTrace_foldl p2p cap i' j')) p hp
    obtain ⟨j', hj', hp''⟩ := mem_annotate_flatMap_inv peerStep _ _ ∅
      (fun j' _ => cellPeerTrace_foldl p2p cap i' j') p hp'
    exact cellPeerTrace_annotate p2p cap i' j' p hp''
  · intro i j
    cases p2p with
    | false => simp [cellPeerTrace]
    | true =>
      cases hcap : cap i j with
      | false => simp [cellPeerTrace, hcap]
      | true => simp [cellPeerTrace, hcap]
  · exact foldl_flatMap_inv peerStep _ _ ∅
      (fun i' _ => foldl_flatMap_inv peerStep _ _ ∅
        (fun j' _ => cellPeerTrace_foldl p2p cap i' j'))

theorem claim6_peer_access_bracketing_witness :
    ((PeerOp.measureCell 0 1,
        ({(0, 1), (1, 0)} : Finset (Nat × Nat))) ∈
      annotate peerStep ∅ (sweepPeerTrace 2 true (fun i j => !(i == j))))
    ∧ ({(0, 1), (1, 0)} : Finset (Nat × Nat)) =
        (if (true && !((0 : Nat) == 1)) = true
          then ({(0, 1), (1, 0)} : Finset (Nat × Nat)) else ∅) :=
  ⟨by decide,
   ((claim6_peer_access_bracketing 2 true (fun i j => !(i == j))).1
      (PeerOp.measureCell 0 1, ({(0, 1), (1, 0)} : Finset (Nat × Nat)))
      (by decide) 0 1).1 rfl⟩

/-! ### Latency matrices (claim C7) -/

/-- `repeat` of the latency sweep (source line 383). -/
def latRepeat : Nat := 100

/-- The value written into `gpuLatencyMatrix[i * numGPUs + j]` (source line
479): microseconds per operation from the device event elapsed time. -/
def gpuLatencyCell (gpu_time_ms : ℚ) : ℚ := gpu_time_ms * 1000 / latRepeat

/-- The value written into `cpuLatencyMatrix[i * numGPUs + j]` (source line
480): microseconds per operation from the host stopwatch that brackets only
the enqueue loop. -/
def cpuLatencyCell (cpu_time_ms : ℚ) : ℚ := cpu_time_ms * 1000 / latRepeat

def gpuLatencyMatrix (numGPUs : Nat) (gpuTime : Nat → Nat → ℚ) : List ℚ :=
  flatGrid numGPUs numGPUs (fun i j => gpuLatencyCell (gpuTime i j))

def cpuLatencyMatrix (numGPUs : Nat) (cpuTime : Nat → Nat → ℚ) : List ℚ :=
  flatGrid numGPUs numGPUs (fun i j => cpuLatencyCell (cpuTime i j))

def HostOp.transferBytes : HostOp → Option Nat
  | .memcpyPeerAsync _ _ _ _ b _ => some b
  | _ => none

theorem length_repeatList (r : Nat) (l : List α) :
    (repeatList r l).length = r * l.length := by
  induction r with
  | zero => simp [repeatList]
  | succ r ih =>
    simp only [repeatList, List.length_append, ih]
    ring

/-- Claim C7: in latency mode (`repeat = 100`, 1-byte transfers), both
reported values of a cell are microseconds per operation (`elapsed_ms * 1000 /
repeat`); whenever the raw device elapsed time is positive and the raw host
elapsed time is at least the device elapsed time (the host stopwatch brackets
strictly more work), both reported values are positive and the host-measured
value is at least the device-measured value. -/
theorem claim7_latency_values (N : Nat) (gpuTime cpuTime : Nat → Nat → ℚ)
    (i j : Nat) (method : P2PDataTransfer) (hi : i < N) (hj : j < N)
    (hgpu : 0 < gpuTime i j) (hle : gpuTime i j ≤ cpuTime i j) :
    (gpuLatencyMatrix N gpuTime)[i * N + j]? = some (gpuTime i j * 1000 / 100)
    ∧ (cpuLatencyMatrix N cpuTime)[i * N + j]? = some (cpuTime i j * 1000 / 100)
    ∧ 0 < gpuTime i j * 1000 / 100
    ∧ 0 < cpuTime i j * 1000 / 100
    ∧ gpuTime i j * 1000 / 100 ≤ cpuTime i j * 1000 / 100
    ∧ (∀ op ∈ latencyTransfers latRepeat i j method, op.transferBytes = some 1)
    ∧ (latencyTransfers latRepeat i j method).length = 100 := by
  have hcpu : 0 < cpuTime i j := lt_of_lt_of_le hgpu hle
  refine ⟨?_, ?_, ?_, ?_, ?_, ?_, ?_⟩
  · rw [gpuLatencyMatrix, flatGrid_getElem? N N _ i j hi hj]
    unfold gpuLatencyCell latRepeat
    norm_num
  · rw [cpuLatencyMatrix, flatGrid_getElem? N N _ i j hi hj]
    unfold cpuLatencyCell latRepeat
    norm_num
  · exact div_pos (mul_pos hgpu (by norm_num)) (by norm_num)
  · exact div_pos (mul_pos hcpu (by norm_num)) (by norm_num)
  · gcongr
  · intro op hop
    unfold latencyTransfers at hop
    split at hop <;> [skip; split at hop] <;>
      · obtain ⟨-, hop⟩ := mem_repeatList.1 hop
        simp only [List.mem_singleton] at hop
        subst hop
        rfl
  · unfold latencyTransfers
    split <;> [skip; split] <;> simp [length_repeatList, latRepeat]

theorem claim7_latency_values_witness :
    ((0 : ℚ) < 1 ∧ (1 : ℚ) ≤ 2) ∧
      ((gpuLatencyMatrix 1 (fun _ _ => 1))[0 * 1 + 0]? = some ((1 : ℚ) * 1000 / 100)
       ∧ (cpuLatencyMatrix 1 (fun _ _ => 2))[0 * 1 + 0]? = some ((2 : ℚ) * 1000 / 100)
       ∧ 0 < (1 : ℚ) * 1000 / 100
       ∧ 0 < (2 : ℚ) * 1000 / 100
       ∧ (1 : ℚ) * 1000 / 100 ≤ (2 : ℚ) * 1000 / 100
       ∧ (∀ op ∈ latencyTransfers latRepeat 0 0 .P2P_WRITE, op.transferBytes = some 1)
       ∧ (latencyTransfers latRepeat 0 0 .P2P_WRITE).length = 100) :=
  ⟨⟨by norm_num, by norm_num⟩,
   claim7_latency_values 1 (fun _ _ => 1) (fun _ _ => 2) 0 0 .P2P_WRITE
     Nat.one_pos Nat.one_pos (by norm_num) (by norm_num)⟩

/-! ### The `main` routine (claims C8, C9, C10) -/

/-- One top-level operation of `main` (source lines 546-629); the three sweep
routines appear as single operations at this granularity. -/
inductive MainOp
  | getDeviceCount
  | printUsage
  | printSampleName
  | getDeviceProperties (d : Nat)
  | printDeviceInfo (d : Nat)
  | canAccessPeerQuery (i j : Nat)
  | printAccessLine (i j : Nat) (access : Bool)
  | printAccessNote
  | printConnHeader
  | printConnEntry (i j v : Nat)
  | printMatrixHeader (label : String)
  | runBandwidthMatrix (p2p : Bool) (method : P2PDataTransfer)
  | runBidirectionalMatrix (p2p : Bool)
  | runLatencyMatrix (p2p : Bool) (method : P2PDataTransfer)
  | printFinalNote
  | exitProcess (code : Nat)
deriving DecidableEq

/-- Trace of `checkP2Paccess` (source lines 64-80): for every ordered pair
with `i != j`, query the capability and print one access line. -/
def checkP2PaccessTrace (numGPUs : Nat) (cap : Nat → Nat → Bool) : List MainOp :=
  ((List.range numGPUs).flatMap (fun i =>
    (List.range numGPUs).flatMap (fun j =>
      if i ≠ j then [.canAccessPeerQuery i j, .printAccessLine i j (cap i j)]
      else [])))
  ++ [.printAccessNote]

/-- Trace of the P2P connectivity matrix printing (source lines 578-601):
off-diagonal cells query the capability and print 0/1, diagonal cells print 1
without any query. -/
def connMatrixTrace (numGPUs : Nat) (cap : Nat → Nat → Bool) : List MainOp :=
  MainOp.printConnHeader ::
  (List.range numGPUs).flatMap (fun i =>
    (List.range numGPUs).flatMap (fun j =>
      if i ≠ j then
        [.canAccessPeerQuery i j, .printConnEntry i j (if cap i j then 1 else 0)]
      else [.printConnEntry i j 1]))

/-- Trace of `main` (source lines 546-629): the device-count query precedes
the `--help` check; a non-help run prints the device list, runs
`checkP2Paccess`, prints the connectivity matrix, then the labeled matrix
sweeps (the Read-policy ones only under `--p2p_read`), and exits 0. -/
def mainTrace (helpFlag p2pReadFlag : Bool) (numGPUs : Nat)
    (cap : Nat → Nat → Bool) : List MainOp :=
  MainOp.getDeviceCount ::
  (if helpFlag then [.printUsage, .exitProcess 0]
   else
     [.printSampleName]
     ++ (List.range numGPUs).flatMap
         (fun d => [.getDeviceProperties d, .printDeviceInfo d])
     ++ checkP2PaccessTrace numGPUs cap
     ++ connMatrixTrace numGPUs cap
     ++ [.printMatrixHeader "Unidirectional P2P=Disabled Bandwidth Matrix (GB/s)",
         .runBandwidthMatrix false .P2P_WRITE,
         .printMatrixHeader "Unidirectional P2P=Enabled Bandwidth (P2P Writes) Matrix (GB/s)",
         .runBandwidthMatrix true .P2P_WRITE]
     ++ (if p2pReadFlag then
          [.printMatrixHeader "Unidirectional P2P=Enabled Bandwidth (P2P Reads) Matrix (GB/s)",
           .runBandwidthMatrix true .P2P_READ]
         else [])
     ++ [.printMatrixHeader "Bidirectional P2P=Disabled Bandwidth Matrix (GB/s)",
         .runBidirectionalMatrix false,
         .printMatrixHeader "Bidirectional P2P=Enabled Bandwidth Matrix (GB/s)",
         .runBidirectionalMatrix true,
         .printMatrixHeader "P2P=Disabled Latency Matrix (us)",
         .runLatencyMatrix false .P2P_WRITE,
         .printMatrixHeader "P2P=Enabled Latency (P2P Writes) Matrix (us)",
         .runLatencyMatrix true .P2P_WRITE]
     ++ (if p2pReadFlag then
          [.printMatrixHeader "P2P=Enabled Latency (P2P Reads) Matrix (us)",
           .runLatencyMatrix true .P2P_READ]
         else [])
     ++ [.printFinalNote, .exitProcess 0])

def MainOp.isDeviceQuery : MainOp → Bool
  | .getDeviceCount => true
  | .getDeviceProperties _ => true
  | .canAccessPeerQuery _ _ => true
  | _ => false

def MainOp.isMeasurement : MainOp → Bool
  | .runBandwidthMatrix _ _ => true
  | .runBidirectionalMatrix _ => true
  | .runLatencyMatrix _ _ => true
  | _ => false

def MainOp.headerLabel : MainOp → Option String
  | .printMatrixHeader s => some s
  | _ => none

def MainOp.exitCodeOf : MainOp → Option Nat
  | .exitProcess c => some c
  | _ => none

def MainOp.devicePropsIndex : MainOp → Option Nat
  | .getDeviceProperties d => some d
  | _ => none

def MainOp.connEntryOf : MainOp → Option (Nat × Nat × Nat)
  | .printConnEntry i j v => some (i, j, v)
  | _ => none

/-- Counterexample for claim C8 as stated: a `--help` invocation still
performs a device query — `main` calls `cudaGetDeviceCount` (source line 551)
before the `--help` check (source line 555), so the number of device queries
on the help path is 1, not 0. -/
theorem claim8_counterexample :
    (mainTrace true false 2 (fun _ _ => false)).countP
      (fun op => op.isDeviceQuery) = 1 ∧ (1 : Nat) ≠ 0 :=
  ⟨rfl, one_ne_zero⟩

/-- Claim C8 (amended): a `--help` invocation prints the usage text and exits
with status 0, performing no measurement and no allocations (the trace is
exactly device-count query, usage print, exit 0), but it does perform exactly
one device query, the device-count query that precedes flag parsing. -/
theorem claim8_help_path (p2pReadFlag : Bool) (N : Nat)
    (cap : Nat → Nat → Bool) :
    mainTrace true p2pReadFlag N cap =
      [.getDeviceCount, .printUsage, .exitProcess 0]
    ∧ (mainTrace true p2pReadFlag N cap).countP (fun op => op.isMeasurement) = 0
    ∧ (mainTrace true p2pReadFlag N cap).countP (fun op => op.isDeviceQuery) = 1
    ∧ (mainTrace true p2pReadFlag N cap).filterMap MainOp.exitCodeOf = [0] :=
  ⟨rfl, rfl, rfl, rfl⟩

theorem flatMap_nil_fun (l : List α) : (l.flatMap fun _ => ([] : List β)) = [] := by
  simp

/-- Counterexample for claim C9 as stated: with the Read policy the run prints
eight labeled matrix sections (and six with the default Write policy), not
five or six. -/
theorem claim9_counterexample :
    ((mainTrace false true 1 (fun _ _ => false)).filterMap
      MainOp.headerLabel).length = 8
    ∧ (8 : Nat) ≠ 5 ∧ (8 : Nat) ≠ 6 :=
  ⟨rfl, by norm_num, by norm_num⟩

/-- Claim C9 (amended): a successful (non-help) run prints the device list
(one property query per device, in order), the P2P connectivity matrix (one
0/1 entry per ordered pair, row-major), then six labeled matrices with the
default Write policy or eight when the Read policy is chosen — unidirectional
P2P-disabled, unidirectional P2P-enabled, unidirectional P2P-enabled-Read only
under the Read policy, bidirectional disabled and enabled, latency disabled
and enabled, and latency Read only under the Read policy — and the process
exits with code 0. -/
theorem claim9_output_structure (p2pReadFlag : Bool) (N : Nat)
    (cap : Nat → Nat → Bool) :
    (mainTrace false p2pReadFlag N cap).filterMap MainOp.headerLabel =
      (if p2pReadFlag then
        ["Unidirectional P2P=Disabled Bandwidth Matrix (GB/s)",
         "Unidirectional P2P=Enabled Bandwidth (P2P Writes) Matrix (GB/s)",
         "Unidirectional P2P=Enabled Bandwidth (P2P Reads) Matrix (GB/s)",
         "Bidirectional P2P=Disabled Bandwidth Matrix (GB/s)",
         "Bidirectional P2P=Enabled Bandwidth Matrix (GB/s)",
         "P2P=Disabled Latency Matrix (us)",
         "P2P=Enabled Latency (P2P Writes) Matrix (us)",
         "P2P=Enabled Latency (P2P Reads) Matrix (us)"]
       else
        ["Unidirectional P2P=Disabled Bandwidth Matrix (GB/s)",
         "Unidirectional P2P=Enabled Bandwidth (P2P Writes) Matrix (GB/s)",
         "Bidirectional P2P=Disabled Bandwidth Matrix (GB/s)",
         "Bidirectional P2P=Enabled Bandwidth Matrix (GB/s)",
         "P2P=Disabled Latency Matrix (us)",
         "P2P=Enabled Latency (P2P Writes) Matrix (us)"])
    ∧ ((mainTrace false p2pReadFlag N cap).filterMap MainOp.headerLabel).length =
        (if p2pReadFlag then 8 else 6)
    ∧ (mainTrace false p2pReadFlag N cap).filterMap MainOp.devicePropsIndex =
        List.range N
    ∧ (mainTrace false p2pReadFlag N cap).filterMap MainOp.connEntryOf =
        (List.range N).flatMap (fun i => (List.range N).flatMap (fun j =>
          if i ≠ j then [(i, j, if cap i j then 1 else 0)] else [(i, j, 1)]))
    ∧ ((mainTrace false p2pReadFlag N cap).filterMap MainOp.connEntryOf).all
        (fun e => e.2.2 == 0 || e.2.2 == 1) = true
    ∧ (mainTrace false p2pReadFlag N cap).filterMap MainOp.exitCodeOf = [0] := by
  have hconn : (mainTrace false p2pReadFlag N cap).filterMap MainOp.connEntryOf =
      (List.range N).flatMap (fun i => (List.range N).flatMap (fun j =>
        if i ≠ j then [(i, j, if cap i j then 1 else 0)] else [(i, j, 1)])) := by
    cases p2pReadFlag <;>
      simp [mainTrace, checkP2PaccessTrace, connMatrixTrace, List.filterMap_append,
        List.filterMap_cons, List.filterMap_flatMap, MainOp.connEntryOf,
        apply_ite (List.filterMap MainOp.connEntryOf), ite_self, flatMap_nil_fun]
  have hhdr : (mainTrace false p2pReadFlag N cap).filterMap MainOp.headerLabel =
      (if p2pReadFlag then
        ["Unidirectional P2P=Disabled Bandwidth Matrix (GB/s)",
         "Unidirectional P2P=Enabled Bandwidth (P2P Writes) Matrix (GB/s)",
         "Unidirectional P2P=Enabled Bandwidth (P2P Reads) Matrix (GB/s)",
         "Bidirectional P2P=Disabled Bandwidth Matrix (GB/s)",
         "Bidirectional P2P=Enabled Bandwidth Matrix (GB/s)",
         "P2P=Disabled Latency Matrix (us)",
         "P2P=Enabled Latency (P2P Writes) Matrix (us)",
         "P2P=Enabled Latency (P2P Reads) Matrix (us)"]
       else
        ["Unidirectional P2P=Disabled Bandwidth Matrix (GB/s)",
         "Unidirectional P2P=Enabled Bandwidth (P2P Writes) Matrix (GB/s)",
         "Bidirectional P2P=Disabled Bandwidth Matrix (GB/s)",
         "Bidirectional P2P=Enabled Bandwidth Matrix (GB/s)",
         "P2P=Disabled Latency Matrix (us)",
         "P2P=Enabled Latency (P2P Writes) Matrix (us)"]) := by
    cases p2pReadFlag <;>
      simp [mainTrace, checkP2PaccessTrace, connMatrixTrace, List.filterMap_append,
        List.filterMap_cons, List.filterMap_flatMap, MainOp.headerLabel,
        apply_ite (List.filterMap MainOp.headerLabel), ite_self, flatMap_nil_fun]
  refine ⟨hhdr, ?_, ?_, hconn, ?_, ?_⟩
  · rw [hhdr]
    cases p2pReadFlag <;> rfl
  · cases p2pReadFlag <;>
      simp [mainTrace, checkP2PaccessTrace, connMatrixTrace, List.filterMap_append,
        List.filterMap_cons, List.filterMap_flatMap, MainOp.devicePropsIndex,
        apply_ite (List.filterMap MainOp.devicePropsIndex), ite_self, flatMap_nil_fun]
  · rw [hconn, List.all_eq_true]
    intro e he
    simp only [List.mem_flatMap, List.mem_range] at he
    obtain ⟨i, -, j, -, hcell⟩ := he
    split at hcell
    · simp only [List.mem_singleton] at hcell
      subst hcell
      cases cap i j <;> rfl
    · simp only [List.mem_singleton] at hcell
      subst hcell
      rfl
  · cases p2pReadFlag <;>
      simp [mainTrace, checkP2PaccessTrace, connMatrixTrace, List.filterMap_append,
        List.filterMap_cons, List.filterMap_flatMap, MainOp.exitCodeOf,
        apply_ite (List.filterMap MainOp.exitCodeOf), ite_self, flatMap_nil_fun]

/-- Claim C10: in the printed P2P connectivity matrix, every diagonal entry is
printed as 1, and no peer-capability query is ever performed for a diagonal
pair during the connectivity-matrix printing, for every device count. -/
theorem claim10_connectivity_diagonal (N : Nat) (cap : Nat → Nat → Bool)
    (i : Nat) (hi : i < N) :
    MainOp.printConnEntry i i 1 ∈ connMatrixTrace N cap
    ∧ ∀ k, MainOp.canAccessPeerQuery k k ∉ connMatrixTrace N cap := by
  constructor
  · refine List.mem_cons_of_mem _ (List.mem_flatMap.2
      ⟨i, List.mem_range.2 hi, List.mem_flatMap.2 ⟨i, List.mem_range.2 hi, ?_⟩⟩)
    simp
  · intro k hk
    rcases List.mem_cons.1 hk with hk | hk
    · exact MainOp.noConfusion hk
    · obtain ⟨a, -, hk⟩ := List.mem_flatMap.1 hk
      obtain ⟨b, -, hk⟩ := List.mem_flatMap.1 hk
      split at hk
      · rename_i hab
        simp only [List.mem_cons, List.not_mem_nil, or_false] at hk
        rcases hk with hk | hk
        · injection hk with h₁ h₂
          exact hab (h₁.symm.trans h₂)
        · exact MainOp.noConfusion hk
      · simp only [List.mem_singleton] at hk
        exact MainOp.noConfusion hk

theorem claim10_connectivity_diagonal_witness :
    (0 : Nat) < 1 ∧
      (MainOp.printConnEntry 0 0 1 ∈ connMatrixTrace 1 (fun _ _ => false)
       ∧ ∀ k, MainOp.canAccessPeerQuery k k ∉ connMatrixTrace 1 (fun _ _ => false)) :=
  ⟨Nat.one_pos, claim10_connectivity_diagonal 1 (fun _ _ => false) 0 Nat.one_pos⟩

end P2PSample
